import Mathlib

/-!
Shallow embedding of the packed-BCD codec and the Format 6 record parser
from `src/main.rs`.

Modelling conventions:
* Rust byte slices (`&[u8]`) are `List Nat`; the bit operations of the source
  (`b >> 4 & 0x0F`, `b & 0x0F`) are written `b / 16 % 16` and `b % 16`.
* Rust strings are `List Char`.
* A Rust panic (`unwrap()` on `None`/`Err`, an out-of-bounds index `raw[i]`
  or slice `&raw[i..j]`) is modelled as the result `none`.  The Rust
  functions return bare values (`String`, `Vec<u8>`, `Format6Record`)
  and have no error-result channel at all, so `none` always means a panic,
  never an explicit error value.
-/

namespace Qraft

/-- Rust `char::from_digit(n, 10)`: `some` of the ASCII digit character
exactly when `n < 10` (48 is the code point of the character zero);
`.unwrap()` of the `none` case is a panic. -/
def charFromDigit10 (n : Nat) : Option Char :=
  if n < 10 then some (Char.ofNat (48 + n)) else none

/-- The nibble-expansion loop of `decode_pack_bcd`: every byte pushes its
high nibble `(b >> 4) & 0x0F` and then its low nibble `b & 0x0F` as decimal
characters, panicking (`none`) as soon as a nibble is outside 0–9, because
the source calls `char::from_digit(nibble, 10).unwrap()` on each nibble. -/
def bcdExpand : List Nat → Option (List Char)
  | [] => some []
  | b :: bs => do
    let hi ← charFromDigit10 (b / 16 % 16)
    let lo ← charFromDigit10 (b % 16)
    let rest ← bcdExpand bs
    pure (hi :: lo :: rest)

/-- `decode_pack_bcd(encoded, digit_count)`: expand every input byte into two
digit characters and then keep only the first `digit_count` characters
(the source's `digits.chars().take(digit_count).collect()`).  Note the
truncation happens after the whole buffer has been expanded, so a bad nibble
anywhere in the buffer panics even if truncation would have discarded it. -/
def decode_pack_bcd (encoded : List Nat) (digit_count : Nat) : Option (List Char) :=
  (bcdExpand encoded).map (fun s => s.take digit_count)

/-- Rust `c.to_digit(10)`: `some` of the digit value for the characters
whose code points lie in 48–57 (the ASCII digits), `none` otherwise;
`.unwrap()` of the `none` case is a panic. -/
def charToDigit10 (c : Char) : Option Nat :=
  if 48 ≤ c.toNat ∧ c.toNat ≤ 57 then some (c.toNat - 48) else none

/-- `encode_pack_bcd(digits)`: the source's `while let` loop pulls digits two
at a time from the iterator `digits.chars().map(|c| c.to_digit(10).unwrap())`,
packing each pair as `(high << 4) | low` and padding a trailing lone digit
with the low nibble `0x0F`.  A non-digit character makes the iterator's
`unwrap()` panic (`none`). -/
def encode_pack_bcd : List Char → Option (List Nat)
  | [] => some []
  | [c] => do
    let hi ← charToDigit10 c
    pure [hi * 16 + 15]
  | c1 :: c2 :: rest => do
    let hi ← charToDigit10 c1
    let lo ← charToDigit10 c2
    let e ← encode_pack_bcd rest
    pure ((hi * 16 + lo) :: e)

/-- Rust slice indexing `&raw[i..i+n]`: the sub-list of `n` elements starting
at position `i`; an out-of-range slice panics (`none`). -/
def listSlice (raw : List Nat) (i n : Nat) : Option (List Nat) :=
  if i + n ≤ raw.length then some ((raw.drop i).take n) else none

/-- Rust `s.parse::<u32>()`: an optional leading plus sign, then at least one
ASCII decimal digit, the value fitting in 32 bits; `.unwrap()` on the failure
case is a panic.  In the parser this is only ever applied to the all-digit
output of `decode_pack_bcd`. -/
def parseU32 (s : List Char) : Option Nat :=
  let t := match s with
    | '+' :: r => r
    | _ => s
  if t ≠ [] ∧ ∀ c ∈ t, 48 ≤ c.toNat ∧ c.toNat ≤ 57 then
    let v := t.foldl (fun a c => a * 10 + (c.toNat - 48)) 0
    if v < 4294967296 then some v else none
  else none

/-- Rust `str::from_utf8`: decodes a byte sequence as UTF-8 (RFC 3629: no
bytes `0xC0`/`0xC1`/`0xF5`–`0xFF`, no overlong forms, no surrogate code
points, correct continuation ranges for each leading byte), `none` on invalid
input (the source's `.unwrap()` then panics). -/
def utf8Decode : List Nat → Option (List Char)
  | [] => some []
  | b1 :: rest =>
    if b1 < 0x80 then
      (utf8Decode rest).map (fun cs => Char.ofNat b1 :: cs)
    else if b1 < 0xC2 then none
    else if b1 < 0xE0 then
      match rest with
      | b2 :: rest2 =>
        if 0x80 ≤ b2 ∧ b2 < 0xC0 then
          (utf8Decode rest2).map (fun cs =>
            Char.ofNat ((b1 - 0xC0) * 64 + (b2 - 0x80)) :: cs)
        else none
      | [] => none
    else if b1 < 0xF0 then
      match rest with
      | b2 :: b3 :: rest3 =>
        if (if b1 = 0xE0 then 0xA0 ≤ b2 ∧ b2 < 0xC0
            else if b1 = 0xED then 0x80 ≤ b2 ∧ b2 < 0xA0
            else 0x80 ≤ b2 ∧ b2 < 0xC0) ∧ 0x80 ≤ b3 ∧ b3 < 0xC0 then
          (utf8Decode rest3).map (fun cs =>
            Char.ofNat ((b1 - 0xE0) * 4096 + (b2 - 0x80) * 64 + (b3 - 0x80)) :: cs)
        else none
      | _ => none
    else if b1 < 0xF5 then
      match rest with
      | b2 :: b3 :: b4 :: rest4 =>
        if (if b1 = 0xF0 then 0x90 ≤ b2 ∧ b2 < 0xC0
            else if b1 = 0xF4 then 0x80 ≤ b2 ∧ b2 < 0x90
            else 0x80 ≤ b2 ∧ b2 < 0xC0) ∧
            (0x80 ≤ b3 ∧ b3 < 0xC0) ∧ (0x80 ≤ b4 ∧ b4 < 0xC0) then
          (utf8Decode rest4).map (fun cs =>
            Char.ofNat ((b1 - 0xF0) * 262144 + (b2 - 0x80) * 4096 +
              (b3 - 0x80) * 64 + (b4 - 0x80)) :: cs)
        else none
      | _ => none
    else none

/-- Rust `char::is_whitespace`: membership in the Unicode `White_Space`
set (space, the controls TAB through CR, NEL, NBSP, OGHAM SPACE MARK, the
EN QUAD–HAIR SPACE range, LINE/PARAGRAPH SEPARATOR, NARROW NBSP, MEDIUM
MATHEMATICAL SPACE, IDEOGRAPHIC SPACE). -/
def rustIsWhitespace (c : Char) : Bool :=
  decide (c.toNat = 0x20 ∨ (0x09 ≤ c.toNat ∧ c.toNat ≤ 0x0D) ∨ c.toNat = 0x85 ∨
    c.toNat = 0xA0 ∨ c.toNat = 0x1680 ∨ (0x2000 ≤ c.toNat ∧ c.toNat ≤ 0x200A) ∨
    c.toNat = 0x2028 ∨ c.toNat = 0x2029 ∨ c.toNat = 0x202F ∨
    c.toNat = 0x205F ∨ c.toNat = 0x3000)

/-- Rust `str::trim_end`: removes the trailing run of characters satisfying
`char::is_whitespace`, leaving everything before it unchanged. -/
def rustTrimEnd (s : List Char) : List Char :=
  (s.reverse.dropWhile rustIsWhitespace).reverse

structure RealTimeQuote where
  price : List Char
  volume : List Char
  deriving DecidableEq

structure Format6Record where
  esc_code : Nat
  info_length : Nat
  business_type : List Char
  format_code : List Char
  version : List Char
  transmission_sn : List Char
  stock_code : List Char
  matching_time : List Char
  disclosed_item_remarks : Nat
  rise_fall_remarks : Nat
  status_remarks : Nat
  accumulative_volume : Nat
  real_time_quotes : List RealTimeQuote
  checksum : Nat
  terminal_code : Nat × Nat
  deriving DecidableEq

structure HeaderFields where
  info_length : Nat
  business_type : List Char
  format_code : List Char
  version : List Char
  transmission_sn : List Char
  deriving DecidableEq

structure BodyFixed where
  stock_code : List Char
  matching_time : List Char
  disclosed_item_remarks : Nat
  rise_fall_remarks : Nat
  status_remarks : Nat
  accumulative_volume : Nat
  deriving DecidableEq

/-- Section `2) HEADER` of `parse_format6` (the source writes it inline; it
is split out here section by section following the source's own numbered
comments, preserving the order of every read and the cursor arithmetic).
Starting at cursor `idx`: info_length (2 bytes of BCD decoded to 4 digits and
then parsed as `u32`), business_type (1 byte, 2 digits), format_code (1 byte,
2 digits), version (1 byte, 2 digits), transmission_sn (4 bytes, 8 digits).
Returns the fields and the cursor just past them (`idx + 9`). -/
def parseHeader (raw : List Nat) (idx : Nat) : Option (HeaderFields × Nat) := do
  let s1 ← listSlice raw idx 2
  let d1 ← decode_pack_bcd s1 4
  let info_length ← parseU32 d1
  let s2 ← listSlice raw (idx + 2) 1
  let business_type ← decode_pack_bcd s2 2
  let s3 ← listSlice raw (idx + 3) 1
  let format_code ← decode_pack_bcd s3 2
  let s4 ← listSlice raw (idx + 4) 1
  let version ← decode_pack_bcd s4 2
  let s5 ← listSlice raw (idx + 5) 4
  let transmission_sn ← decode_pack_bcd s5 8
  pure (⟨info_length, business_type, format_code, version, transmission_sn⟩,
    idx + 9)

/-- Section `3) BODY` (fixed part) of `parse_format6`.  Starting at cursor
`idx`: stock_code (6 bytes, `str::from_utf8(..).unwrap()` then `trim_end`),
matching_time (6 bytes of BCD, 12 digits), the three raw remark bytes,
accumulative_volume (4 bytes of BCD, 8 digits, parsed as `u32`).  Returns the
fields and the cursor just past them (`idx + 19`). -/
def parseBody (raw : List Nat) (idx : Nat) : Option (BodyFixed × Nat) := do
  let s6 ← listSlice raw idx 6
  let stockChars ← utf8Decode s6
  let stock_code := rustTrimEnd stockChars
  let s7 ← listSlice raw (idx + 6) 6
  let matching_time ← decode_pack_bcd s7 12
  let disclosed_item_remarks ← raw[idx + 12]?
  let rise_fall_remarks ← raw[idx + 13]?
  let status_remarks ← raw[idx + 14]?
  let s8 ← listSlice raw (idx + 15) 4
  let d8 ← decode_pack_bcd s8 8
  let accumulative_volume ← parseU32 d8
  pure (⟨stock_code, matching_time, disclosed_item_remarks, rise_fall_remarks,
    status_remarks, accumulative_volume⟩, idx + 19)

/-- Section `3.7 Real-time Quotes` of `parse_format6` (the source parses
exactly one entry): price (5 bytes of BCD, 9 digits) then volume (4 bytes of
BCD, 8 digits).  Returns the quote and the cursor just past it (`idx + 9`). -/
def parseQuote (raw : List Nat) (idx : Nat) : Option (RealTimeQuote × Nat) := do
  let s9 ← listSlice raw idx 5
  let price ← decode_pack_bcd s9 9
  let s10 ← listSlice raw (idx + 5) 4
  let volume ← decode_pack_bcd s10 8
  pure (RealTimeQuote.mk price volume, idx + 9)

/-- `parse_format6(raw)`: one forward pass over the buffer with a
monotonically advancing read cursor, assembled from the section parsers above
in the source's order: ESC byte at 0, header at 1, body at 10, the single
quote at 29, checksum at the following byte, two terminal-code bytes after
that.  The second component of the result is the total number of bytes
consumed — the cursor position just past the two terminal-code bytes.
`none` models a panic: an out-of-bounds `raw[idx]`, an out-of-bounds slice
`&raw[idx..idx+n]`, or a failed `unwrap` inside a field decode.  The Rust
function returns a bare `Format6Record` and has no error-result channel. -/
def parse_format6 (raw : List Nat) : Option (Format6Record × Nat) := do
  let esc_code ← raw[0]?
  let (header, idx1) ← parseHeader raw 1
  let (body, idx2) ← parseBody raw idx1
  let (quote, idx3) ← parseQuote raw idx2
  let checksum ← raw[idx3]?
  let t1 ← raw[idx3 + 1]?
  let t2 ← raw[idx3 + 2]?
  pure ({ esc_code,
          info_length := header.info_length,
          business_type := header.business_type,
          format_code := header.format_code,
          version := header.version,
          transmission_sn := header.transmission_sn,
          stock_code := body.stock_code,
          matching_time := body.matching_time,
          disclosed_item_remarks := body.disclosed_item_remarks,
          rise_fall_remarks := body.rise_fall_remarks,
          status_remarks := body.status_remarks,
          accumulative_volume := body.accumulative_volume,
          real_time_quotes := [quote],
          checksum,
          terminal_code := (t1, t2) }, idx3 + 3)

/-- The 41-byte buffer built by the source's own `test_parse_format6`:
ESC, header `0047`/`01`/`06`/`04`/`00000001`, stock code `"2330  "`,
matching time `093015123456`, the three remark bytes, accumulated volume
`00001234`, one price/volume quote, checksum `0x5A`, terminal `0x0D 0x0A`. -/
def fmt6TestBuf : List Nat :=
  [0x1B,
   0x00, 0x47, 0x01, 0x06, 0x04, 0x00, 0x00, 0x00, 0x01,
   0x32, 0x33, 0x33, 0x30, 0x20, 0x20,
   0x09, 0x30, 0x15, 0x12, 0x34, 0x56,
   0x89, 0x00, 0x80,
   0x00, 0x00, 0x12, 0x34,
   0x00, 0x12, 0x34, 0x56, 0x70,
   0x00, 0x00, 0x01, 0x00,
   0x5A, 0x0D, 0x0A]

/-- The same buffer with the six stock-code bytes replaced by `"AB"` followed
by four TAB characters (`0x09`) — tabs are whitespace but not spaces. -/
def fmt6TabBuf : List Nat :=
  [0x1B,
   0x00, 0x47, 0x01, 0x06, 0x04, 0x00, 0x00, 0x00, 0x01,
   0x41, 0x42, 0x09, 0x09, 0x09, 0x09,
   0x09, 0x30, 0x15, 0x12, 0x34, 0x56,
   0x89, 0x00, 0x80,
   0x00, 0x00, 0x12, 0x34,
   0x00, 0x12, 0x34, 0x56, 0x70,
   0x00, 0x00, 0x01, 0x00,
   0x5A, 0x0D, 0x0A]

/-- The record the source's `test_parse_format6` asserts for `fmt6TestBuf`:
esc `0x1B`, info_length 47, business type `"01"`, format `"06"`, version
`"04"`, serial `"00000001"`, stock `"2330"`, matching time `"093015123456"`,
remark bytes `0x89`/`0x00`/`0x80`, accumulated volume 1234, one quote with
price `"001234567"` and volume `"00000100"`, checksum `0x5A`, terminal
`0x0D 0x0A`. -/
def fmt6ExpectedRec : Format6Record where
  esc_code := 0x1B
  info_length := 47
  business_type := ['0', '1']
  format_code := ['0', '6']
  version := ['0', '4']
  transmission_sn := ['0', '0', '0', '0', '0', '0', '0', '1']
  stock_code := ['2', '3', '3', '0']
  matching_time := ['0', '9', '3', '0', '1', '5', '1', '2', '3', '4', '5', '6']
  disclosed_item_remarks := 0x89
  rise_fall_remarks := 0x00
  status_remarks := 0x80
  accumulative_volume := 1234
  real_time_quotes :=
    [⟨['0', '0', '1', '2', '3', '4', '5', '6', '7'],
      ['0', '0', '0', '0', '0', '1', '0', '0']⟩]
  checksum := 0x5A
  terminal_code := (0x0D, 0x0A)

/-- Modelled from the spec: the trimming operation named by the spec's
`stock_code` sentences — "right-trimmed of trailing spaces", stripping "only
the trailing run" of spaces.  Removes the trailing run of the space character
`' '` (0x20) alone and nothing else.  Used to compare the spec's wording with
the source's `trim_end` (which strips all trailing whitespace). -/
def stripTrailingSpaces (s : List Char) : List Char :=
  (s.reverse.dropWhile (fun c => c = ' ')).reverse

/-- For `n < 10` the character produced by `charFromDigit10` has code point
`48 + n`. -/
theorem toNat_charOfNat_digit (n : Nat) (h : n < 10) :
    (Char.ofNat (48 + n)).toNat = 48 + n := by
  interval_cases n <;> decide

/-- Expansion succeeds on a buffer whose nibbles are all in 0–9, producing
twice as many characters as bytes, all of them ASCII decimal digits. -/
theorem bcdExpand_valid (b : List Nat)
    (h : ∀ x ∈ b, x / 16 % 16 < 10 ∧ x % 16 < 10) :
    ∃ s, bcdExpand b = some s ∧ s.length = 2 * b.length ∧
      ∀ c ∈ s, 48 ≤ c.toNat ∧ c.toNat ≤ 57 := by
  induction b with
  | nil => exact ⟨[], rfl, rfl, by simp⟩
  | cons x xs ih =>
    obtain ⟨hh, hl⟩ := h x (List.mem_cons_self x xs)
    obtain ⟨s, hs, hlen, hdig⟩ := ih (fun y hy => h y (List.mem_cons_of_mem x hy))
    refine ⟨Char.ofNat (48 + x / 16 % 16) :: Char.ofNat (48 + x % 16) :: s, ?_, ?_, ?_⟩
    · simp [bcdExpand, charFromDigit10, hh, hl, hs]
    · simp only [List.length_cons, hlen]; omega
    · intro c hc
      rcases List.mem_cons.1 hc with rfl | hc
      · rw [toNat_charOfNat_digit _ hh]; omega
      rcases List.mem_cons.1 hc with rfl | hc
      · rw [toNat_charOfNat_digit _ hl]; omega
      · exact hdig c hc

/-- Expansion panics as soon as any byte of the buffer has a nibble outside
0–9. -/
theorem bcdExpand_none_of_bad (b : List Nat) (x : Nat) (hx : x ∈ b)
    (hbad : ¬(x / 16 % 16 < 10 ∧ x % 16 < 10)) :
    bcdExpand b = none := by
  induction b with
  | nil => cases hx
  | cons y ys ih =>
    rcases List.mem_cons.1 hx with rfl | hx
    · by_cases hh : x / 16 % 16 < 10
      · have hl : ¬ x % 16 < 10 := fun hl => hbad ⟨hh, hl⟩
        simp [bcdExpand, charFromDigit10, hh, hl]
      · simp [bcdExpand, charFromDigit10, hh]
    · have hys := ih hx
      simp only [bcdExpand, hys]
      by_cases hh : y / 16 % 16 < 10 <;>
        by_cases hl : y % 16 < 10 <;>
          simp [charFromDigit10, hh, hl]

/-- Encoding a digit string succeeds, and when the length is even the
expansion of the produced bytes is exactly the original digit string. -/
theorem encode_decode_even (d : List Char)
    (hd : ∀ c ∈ d, 48 ≤ c.toNat ∧ c.toNat ≤ 57) (he : d.length % 2 = 0) :
    ∃ e, encode_pack_bcd d = some e ∧ bcdExpand e = some d := by
  induction d using encode_pack_bcd.induct with
  | case1 => exact ⟨[], rfl, rfl⟩
  | case2 c => simp at he
  | case3 c1 c2 rest ih =>
    obtain ⟨h1l, h1u⟩ := hd c1 (by simp)
    obtain ⟨h2l, h2u⟩ := hd c2 (by simp)
    obtain ⟨e, henc, hexp⟩ := ih (fun c hc => hd c (by simp [hc]))
      (by simp only [List.length_cons] at he; omega)
    refine ⟨((c1.toNat - 48) * 16 + (c2.toNat - 48)) :: e, ?_, ?_⟩
    · simp [encode_pack_bcd, charToDigit10, h1l, h1u, h2l, h2u, henc]
    · have hhi : ((c1.toNat - 48) * 16 + (c2.toNat - 48)) / 16 % 16 = c1.toNat - 48 := by
        omega
      have hlo : ((c1.toNat - 48) * 16 + (c2.toNat - 48)) % 16 = c2.toNat - 48 := by
        omega
      have e1 : (48 : Nat) + (c1.toNat - 48) = c1.toNat := by omega
      have e2 : (48 : Nat) + (c2.toNat - 48) = c2.toNat := by omega
      have hlt1 : c1.toNat - 48 < 10 := by omega
      have hlt2 : c2.toNat - 48 < 10 := by omega
      simp [bcdExpand, charFromDigit10, hhi, hlo, hexp, e1, e2, hlt1, hlt2, Char.ofNat_toNat]

/-- Encoding an odd-length digit string succeeds and the produced byte
sequence contains a byte whose low nibble is the padding sentinel `0x0F`. -/
theorem encode_odd_has_pad (d : List Char)
    (hd : ∀ c ∈ d, 48 ≤ c.toNat ∧ c.toNat ≤ 57) (ho : d.length % 2 = 1) :
    ∃ e, encode_pack_bcd d = some e ∧ ∃ x ∈ e, x % 16 = 15 := by
  induction d using encode_pack_bcd.induct with
  | case1 => simp at ho
  | case2 c =>
    obtain ⟨hl, hu⟩ := hd c (by simp)
    refine ⟨[(c.toNat - 48) * 16 + 15], ?_, (c.toNat - 48) * 16 + 15, by simp, by omega⟩
    simp [encode_pack_bcd, charToDigit10, hl, hu]
  | case3 c1 c2 rest ih =>
    obtain ⟨h1l, h1u⟩ := hd c1 (by simp)
    obtain ⟨h2l, h2u⟩ := hd c2 (by simp)
    obtain ⟨e, henc, x, hxe, hx15⟩ := ih (fun c hc => hd c (by simp [hc]))
      (by simp only [List.length_cons] at ho; omega)
    refine ⟨((c1.toNat - 48) * 16 + (c2.toNat - 48)) :: e, ?_, x, by simp [hxe], hx15⟩
    simp [encode_pack_bcd, charToDigit10, h1l, h1u, h2l, h2u, henc]

/-- Claim C3 counterexample: the hypothesis `digit_count ≤ 2 * len(b)` holds
for the byte sequence `[0xFF]` with `digit_count = 2`, yet decoding does not
return a two-character digit string: both nibbles of `0xFF` are 15 and the
source's `char::from_digit(15, 10).unwrap()` panics (modelled as `none`).
So `decode` is not total on bytes whose nibbles are 10–15. -/
theorem C3_counterexample :
    decode_pack_bcd [255] 2 = none ∧ 2 ≤ 2 * List.length [(255 : Nat)] :=
  ⟨rfl, by decide⟩

/-- Claim C3 (amended): for every byte sequence all of whose nibbles are in
0–9 and every `digit_count ≤ 2 * len(b)`, `decode` succeeds with a string of
length exactly `digit_count` whose characters are all ASCII decimal digits;
on any byte with a nibble in 10–15 the decoder panics instead. -/
theorem C3_decode_length_and_digits (b : List Nat) (digit_count : Nat)
    (hv : ∀ x ∈ b, x / 16 % 16 < 10 ∧ x % 16 < 10)
    (hd : digit_count ≤ 2 * b.length) :
    ∃ s, decode_pack_bcd b digit_count = some s ∧ s.length = digit_count ∧
      ∀ c ∈ s, 48 ≤ c.toNat ∧ c.toNat ≤ 57 := by
  obtain ⟨s, hs, hlen, hdig⟩ := bcdExpand_valid b hv
  refine ⟨s.take digit_count, by simp [decode_pack_bcd, hs], ?_, ?_⟩
  · rw [List.length_take, hlen]; omega
  · intro c hc; exact hdig c (List.mem_of_mem_take hc)

/-- Witness for the amended C3 at the concrete input `[0x12, 0x34]` with
`digit_count = 3`. -/
theorem C3_witness :
    ∃ s, decode_pack_bcd [18, 52] 3 = some s ∧ s.length = 3 ∧
      ∀ c ∈ s, 48 ≤ c.toNat ∧ c.toNat ≤ 57 :=
  C3_decode_length_and_digits [18, 52] 3 (by decide) (by decide)

/-- Claim C4: even-length round-trip.  For every digit string `d` of even
length whose characters are all ASCII decimal digits, encoding succeeds and
`decode(encode(d), len(d)) = d`. -/
theorem C4_roundtrip_even (d : List Char)
    (hd : ∀ c ∈ d, 48 ≤ c.toNat ∧ c.toNat ≤ 57) (he : d.length % 2 = 0) :
    ∃ e, encode_pack_bcd d = some e ∧ decode_pack_bcd e d.length = some d := by
  obtain ⟨e, h1, h2⟩ := encode_decode_even d hd he
  exact ⟨e, h1, by simp [decode_pack_bcd, h2]⟩

/-- Witness for C4 at the concrete digit string `"1234"`. -/
theorem C4_witness :
    ∃ e, encode_pack_bcd ['1', '2', '3', '4'] = some e ∧
      decode_pack_bcd e 4 = some ['1', '2', '3', '4'] :=
  C4_roundtrip_even ['1', '2', '3', '4'] (by decide) (by decide)

/-- Claim C5 counterexample: for the odd-length digit string `"1"`,
`encode` produces `[0x1F]` but `decode([0x1F], 1)` panics (`none`) instead of
returning `"1"`: the decoder expands every nibble before truncating, so the
`0x0F` padding nibble hits `char::from_digit(15, 10).unwrap()` and the
truncation never gets the chance to discard it. -/
theorem C5_counterexample :
    encode_pack_bcd ['1'] = some [31] ∧ decode_pack_bcd [31] 1 = none :=
  ⟨rfl, rfl⟩

/-- Claim C5 (amended): for every non-empty digit string of odd length,
encoding succeeds but decoding the result back at `digit_count = len(d)`
panics (`none`) on the `0x0F` padding nibble; the odd-length round-trip
never holds. -/
theorem C5_roundtrip_odd_panics (d : List Char)
    (hd : ∀ c ∈ d, 48 ≤ c.toNat ∧ c.toNat ≤ 57) (ho : d.length % 2 = 1) :
    ∃ e, encode_pack_bcd d = some e ∧ decode_pack_bcd e d.length = none := by
  obtain ⟨e, henc, x, hxe, hx15⟩ := encode_odd_has_pad d hd ho
  have : bcdExpand e = none :=
    bcdExpand_none_of_bad e x hxe (by omega)
  exact ⟨e, henc, by simp [decode_pack_bcd, this]⟩

/-- Witness for the amended C5 at the concrete digit string `"123"`. -/
theorem C5_witness :
    ∃ e, encode_pack_bcd ['1', '2', '3'] = some e ∧ decode_pack_bcd e 3 = none :=
  C5_roundtrip_odd_panics ['1', '2', '3'] (by decide) (by decide)

/-- Claim C6 counterexample: with `digit_count = 4 > 2 = 2 * len(b)` the
decoder does not fail at all: `decode([0x12], 4)` successfully returns the
two-character string `"12"`, silently shorter than the requested four
digits.  There is no `LengthError` (or any error) path in the source. -/
theorem C6_counterexample :
    decode_pack_bcd [18] 4 = some ['1', '2'] ∧ 2 * List.length [(18 : Nat)] < 4 :=
  ⟨rfl, by decide⟩

/-- Claim C6 (amended): for every byte sequence with valid nibbles and every
`digit_count > 2 * len(b)`, `decode` succeeds and returns the full expansion,
a string of length `2 * len(b)`, strictly shorter than requested. -/
theorem C6_decode_overlong_silent_short (b : List Nat) (digit_count : Nat)
    (hv : ∀ x ∈ b, x / 16 % 16 < 10 ∧ x % 16 < 10)
    (hd : 2 * b.length < digit_count) :
    ∃ s, decode_pack_bcd b digit_count = some s ∧ s.length = 2 * b.length ∧
      s.length < digit_count := by
  obtain ⟨s, hs, hlen, _⟩ := bcdExpand_valid b hv
  have htake : s.take digit_count = s := List.take_of_length_le (by omega)
  exact ⟨s, by simp [decode_pack_bcd, hs, htake], hlen, by omega⟩

/-- Witness for the amended C6 at the concrete input `[0x12]` with
`digit_count = 4`. -/
theorem C6_witness :
    ∃ s, decode_pack_bcd [18] 4 = some s ∧ s.length = 2 * List.length [(18 : Nat)] ∧
      s.length < 4 :=
  C6_decode_overlong_silent_short [18] 4 (by decide) (by decide)

/-- Claim C7 counterexample: on the input `"a"`, which contains a non-digit
character, `encode` panics — the source's `c.to_digit(10).unwrap()` — which
the embedding records as `none`.  `encode_pack_bcd` returns a bare `Vec<u8>`
in the source and has no error-result channel, so no `InvalidDigitError`
value is ever produced. -/
theorem C7_counterexample : encode_pack_bcd ['a'] = none := rfl

/-- Claim C7 (amended): for every input containing at least one character
that is not an ASCII decimal digit, `encode` panics (`none`) — it produces
no output, but the failure is a panic, not an explicit `InvalidDigitError`
result. -/
theorem C7_encode_nondigit_panics (d : List Char)
    (h : ∃ c ∈ d, ¬(48 ≤ c.toNat ∧ c.toNat ≤ 57)) :
    encode_pack_bcd d = none := by
  induction d using encode_pack_bcd.induct with
  | case1 => simp at h
  | case2 c =>
    obtain ⟨c', hc', hnd⟩ := h
    rcases List.mem_singleton.1 hc' with rfl
    simp [encode_pack_bcd, charToDigit10, hnd]
  | case3 c1 c2 rest ih =>
    obtain ⟨c, hc, hnd⟩ := h
    rcases List.mem_cons.1 hc with rfl | hc
    · simp [encode_pack_bcd, charToDigit10, hnd]
    rcases List.mem_cons.1 hc with rfl | hc
    · cases h1 : charToDigit10 c1 <;>
        simp [encode_pack_bcd, charToDigit10, hnd, h1]
    · have hrest := ih ⟨c, hc, hnd⟩
      cases h1 : charToDigit10 c1 <;> cases h2 : charToDigit10 c2 <;>
        simp [encode_pack_bcd, h1, h2, hrest]

/-- Witness for the amended C7 at the concrete input `"a0"`. -/
theorem C7_witness : encode_pack_bcd ['a', '0'] = none :=
  C7_encode_nondigit_panics ['a', '0'] ⟨'a', by decide, by decide⟩

/-- Claim C8: the pairing behaviour of the codec.  Digits are consumed two at
a time, the first digit of a pair landing in the high nibble and the second in
the low nibble; a trailing lone digit is padded with the low nibble `0x0F`;
the empty string encodes to the empty byte sequence; and the known vectors
`encode("1234") = [0x12, 0x34]`, `encode("12345") = [0x12, 0x34, 0x5F]`,
`decode([0x12, 0x34], 4) = "1234"`, `decode([0x00, 0x01], 4) = "0001"`
hold. -/
theorem C8_encode_pairing :
    (∀ (c1 c2 : Char) (rest : List Char),
      48 ≤ c1.toNat ∧ c1.toNat ≤ 57 → 48 ≤ c2.toNat ∧ c2.toNat ≤ 57 →
      encode_pack_bcd (c1 :: c2 :: rest) =
        (encode_pack_bcd rest).map
          (fun e => ((c1.toNat - 48) * 16 + (c2.toNat - 48)) :: e)) ∧
    (∀ c : Char, 48 ≤ c.toNat ∧ c.toNat ≤ 57 →
      encode_pack_bcd [c] = some [(c.toNat - 48) * 16 + 15]) ∧
    encode_pack_bcd [] = some [] ∧
    encode_pack_bcd ['1', '2', '3', '4'] = some [18, 52] ∧
    encode_pack_bcd ['1', '2', '3', '4', '5'] = some [18, 52, 95] ∧
    decode_pack_bcd [18, 52] 4 = some ['1', '2', '3', '4'] ∧
    decode_pack_bcd [0, 1] 4 = some ['0', '0', '0', '1'] := by
  refine ⟨?_, ?_, rfl, rfl, rfl, rfl, rfl⟩
  · intro c1 c2 rest h1 h2
    cases henc : encode_pack_bcd rest <;>
      simp [encode_pack_bcd, charToDigit10, h1.1, h1.2, h2.1, h2.2, henc]
  · intro c h
    simp [encode_pack_bcd, charToDigit10, h.1, h.2]

/-- Witness for C8, instantiating the pairing law at the concrete pair
`"78"`: the byte is `7 * 16 + 8 = 120 = 0x78`. -/
theorem C8_witness : encode_pack_bcd ['7', '8'] = some [120] := by
  have h := C8_encode_pairing.1 '7' '8' [] (by decide) (by decide)
  simpa [encode_pack_bcd] using h

/-- A successful slice means the requested range fits in the buffer. -/
theorem listSlice_eq_some {raw : List Nat} {i n : Nat} {s : List Nat}
    (h : listSlice raw i n = some s) :
    i + n ≤ raw.length ∧ s = (raw.drop i).take n := by
  by_cases hc : i + n ≤ raw.length
  · refine ⟨hc, ?_⟩
    simp only [listSlice, if_pos hc, Option.some.injEq] at h
    exact h.symm
  · simp [listSlice, hc] at h

/-- A successful header parse advances the cursor by exactly 9 bytes, which
all lie inside the buffer. -/
theorem parseHeader_elim {raw : List Nat} {idx : Nat} {hf : HeaderFields} {n : Nat}
    (hp : parseHeader raw idx = some (hf, n)) :
    n = idx + 9 ∧ idx + 9 ≤ raw.length := by
  simp only [parseHeader, Option.bind_eq_bind, Option.bind_eq_some, Option.pure_def, Option.some.injEq,
    Prod.mk.injEq] at hp
  obtain ⟨s1, hs1, d1, hd1, il, hil, s2, hs2, bt, hbt, s3, hs3, fc, hfc,
    s4, hs4, v, hv, s5, hs5, sn, hsn, hrec, hn⟩ := hp
  exact ⟨hn.symm, by have := (listSlice_eq_some hs5).1; omega⟩

/-- A successful body parse advances the cursor by exactly 19 bytes, and its
stock-code field is the `trim_end` of the UTF-8 decoding of the six bytes at
the start of the body. -/
theorem parseBody_elim {raw : List Nat} {idx : Nat} {bf : BodyFixed} {n : Nat}
    (hp : parseBody raw idx = some (bf, n)) :
    n = idx + 19 ∧ idx + 19 ≤ raw.length ∧
      ∃ bytes chars, listSlice raw idx 6 = some bytes ∧
        utf8Decode bytes = some chars ∧ bf.stock_code = rustTrimEnd chars := by
  simp only [parseBody, Option.bind_eq_bind, Option.bind_eq_some, Option.pure_def, Option.some.injEq,
    Prod.mk.injEq] at hp
  obtain ⟨s6, hs6, chars, hchars, s7, hs7, mt, hmt, di, hdi, rf, hrf, st, hst,
    s8, hs8, d8, hd8, av, hav, hrec, hn⟩ := hp
  refine ⟨hn.symm, by have := (listSlice_eq_some hs8).1; omega,
    s6, chars, hs6, hchars, ?_⟩
  rw [← hrec]

/-- A successful quote parse advances the cursor by exactly 9 bytes. -/
theorem parseQuote_elim {raw : List Nat} {idx : Nat} {q : RealTimeQuote} {n : Nat}
    (hp : parseQuote raw idx = some (q, n)) :
    n = idx + 9 ∧ idx + 9 ≤ raw.length := by
  simp only [parseQuote, Option.bind_eq_bind, Option.bind_eq_some, Option.pure_def, Option.some.injEq,
    Prod.mk.injEq] at hp
  obtain ⟨s9, hs9, pr, hpr, s10, hs10, vo, hvo, hrec, hn⟩ := hp
  exact ⟨hn.symm, by have := (listSlice_eq_some hs10).1; omega⟩

/-- Anatomy of a successful parse: the consumed count is always 41, the
buffer holds at least 41 bytes, and the record's stock code is the trimmed
UTF-8 decoding of the 6 bytes at offset 10. -/
theorem parse_format6_elim {raw : List Nat} {r : Format6Record} {n : Nat}
    (hp : parse_format6 raw = some (r, n)) :
    n = 41 ∧ 41 ≤ raw.length ∧
      ∃ bytes chars, listSlice raw 10 6 = some bytes ∧
        utf8Decode bytes = some chars ∧ r.stock_code = rustTrimEnd chars := by
  simp only [parse_format6, Option.bind_eq_bind, Option.bind_eq_some] at hp
  obtain ⟨esc, hesc, p1, hH, hp⟩ := hp
  obtain ⟨header, idx1⟩ := p1
  simp only [Option.bind_eq_bind, Option.bind_eq_some] at hp
  obtain ⟨p2, hB, hp⟩ := hp
  obtain ⟨body, idx2⟩ := p2
  simp only [Option.bind_eq_bind, Option.bind_eq_some] at hp
  obtain ⟨p3, hQ, hp⟩ := hp
  obtain ⟨quote, idx3⟩ := p3
  simp only [Option.bind_eq_bind, Option.bind_eq_some, Option.pure_def,
    Option.some.injEq, Prod.mk.injEq] at hp
  obtain ⟨ck, hck, t1, ht1, t2, ht2, hrec, hn⟩ := hp
  have hidx1 := (parseHeader_elim hH).1
  obtain ⟨hidx2, -, bytes, chars, hbytes, hchars, hstock⟩ := parseBody_elim hB
  have hidx3 := (parseQuote_elim hQ).1
  obtain ⟨hlt, -⟩ := List.getElem?_eq_some.1 ht2
  have h10 : idx1 = 10 := by omega
  rw [h10] at hbytes
  refine ⟨by omega, by omega, bytes, chars, hbytes, hchars, ?_⟩
  rw [← hrec]
  exact hstock

/-- Claim C1 counterexample: on the 34-byte truncation of the test buffer —
shorter than 35 bytes — `parse_format6` panics on an out-of-bounds slice
(result `none`).  The source's return type `Format6Record` has no error
channel, so no `TruncatedInputError` value exists to be returned: the claimed
"explicit failure result, not a panic" is impossible for this code. -/
theorem C1_counterexample :
    parse_format6 (fmt6TestBuf.take 34) = none ∧ (fmt6TestBuf.take 34).length < 35 :=
  ⟨by decide, by decide⟩

/-- Claim C1 (amended): every buffer shorter than 35 bytes makes
`parse_format6` panic (modelled as `none`): no record — partial or otherwise
— is returned, but the failure is a panic from an out-of-bounds access, not
an explicit `TruncatedInputError` result. -/
theorem C1_short_buffer_panics (raw : List Nat) (h : raw.length < 35) :
    parse_format6 raw = none := by
  cases hp : parse_format6 raw with
  | none => rfl
  | some x =>
    obtain ⟨r, n⟩ := x
    have := (parse_format6_elim hp).2.1
    omega

/-- Witness for the amended C1 at the concrete one-byte buffer `[0x1B]`. -/
theorem C1_witness : parse_format6 [27] = none :=
  C1_short_buffer_panics [27] (by decide)

/-- Claim C2 counterexample: the source's own 41-byte test vector parses
successfully, and the read cursor after the terminal code — the total number
of bytes consumed — is 41, not the claimed 35. -/
theorem C2_counterexample :
    (parse_format6 fmt6TestBuf).map Prod.snd = some 41 ∧ (41 : Nat) ≠ 35 :=
  ⟨by decide, by decide⟩

/-- Claim C2 (amended): for every buffer that `parse_format6` successfully
parses (always into a record with exactly one real-time quote), the total
number of bytes consumed — the cursor position after the terminal code — is
exactly 41 = 1 (esc) + 9 (header) + 19 (body fixed part) + 9 (one quote) +
1 (checksum) + 2 (terminal). -/
theorem C2_consumed_is_41 (raw : List Nat) (r : Format6Record) (n : Nat)
    (hp : parse_format6 raw = some (r, n)) : n = 41 :=
  (parse_format6_elim hp).1

/-- Witness for the amended C2 at the source's own test vector. -/
theorem C2_witness :
    parse_format6 fmt6TestBuf = some (fmt6ExpectedRec, 41) ∧ (41 : Nat) = 41 :=
  ⟨by decide, C2_consumed_is_41 fmt6TestBuf fmt6ExpectedRec 41 (by decide)⟩

/-- Splitting a string where `trim_end` cuts: the original string is its
trimmed prefix followed by a run of whitespace characters. -/
theorem rustTrimEnd_split (s : List Char) :
    ∃ t, s = rustTrimEnd s ++ t ∧ ∀ c ∈ t, rustIsWhitespace c = true := by
  refine ⟨(s.reverse.takeWhile rustIsWhitespace).reverse, ?_, ?_⟩
  · rw [rustTrimEnd, ← List.reverse_append, List.takeWhile_append_dropWhile,
      List.reverse_reverse]
  · intro c hc
    rw [List.mem_reverse] at hc
    exact List.mem_takeWhile_imp hc

/-- Claim C9 counterexample: in `fmt6TabBuf` the six stock-code bytes are
`"AB"` followed by four TAB characters.  Rust's `trim_end` strips all
trailing whitespace, so the parsed `stock_code` is `"AB"`; but the claim's
"only the trailing run of spaces removed" (`stripTrailingSpaces`) would
leave `"AB\t\t\t\t"` intact, because none of the trailing characters is a
space. -/
theorem C9_counterexample :
    listSlice fmt6TabBuf 10 6 = some [65, 66, 9, 9, 9, 9] ∧
    (parse_format6 fmt6TabBuf).map (fun p => p.1.stock_code) = some ['A', 'B'] ∧
    stripTrailingSpaces ['A', 'B', '\t', '\t', '\t', '\t'] ≠ ['A', 'B'] :=
  ⟨by decide, by decide, by decide⟩

/-- Claim C9 (amended): for every successfully parsed buffer, `stock_code`
equals the UTF-8 decoding of the 6-byte slice at offset 10 with only the
trailing run of whitespace characters (Rust `char::is_whitespace`, which
covers spaces, tabs, newlines, …) removed: everything before that trailing
run — internal characters, including internal spaces and other whitespace —
is preserved unchanged. -/
theorem C9_stock_code_trimmed (raw : List Nat) (r : Format6Record) (n : Nat)
    (hp : parse_format6 raw = some (r, n)) :
    ∃ bytes chars t, listSlice raw 10 6 = some bytes ∧
      utf8Decode bytes = some chars ∧ chars = r.stock_code ++ t ∧
      (∀ c ∈ t, rustIsWhitespace c = true) ∧ r.stock_code = rustTrimEnd chars := by
  obtain ⟨-, -, bytes, chars, hb, hc, hs⟩ := parse_format6_elim hp
  obtain ⟨t, hsplit, hws⟩ := rustTrimEnd_split chars
  exact ⟨bytes, chars, t, hb, hc, by rw [hs]; exact hsplit, hws, hs⟩

/-- Witness for the amended C9 at the source's own test vector. -/
theorem C9_witness :
    ∃ bytes chars t, listSlice fmt6TestBuf 10 6 = some bytes ∧
      utf8Decode bytes = some chars ∧ chars = fmt6ExpectedRec.stock_code ++ t ∧
      (∀ c ∈ t, rustIsWhitespace c = true) ∧
      fmt6ExpectedRec.stock_code = rustTrimEnd chars :=
  C9_stock_code_trimmed fmt6TestBuf fmt6ExpectedRec 41 (by decide)

/-- Elements below index 41 are unchanged by `take 41`. -/
theorem getElem_take41 (raw : List Nat) (i : Nat) (hi : i < 41) :
    (raw.take 41)[i]? = raw[i]? :=
  List.getElem?_take_of_lt hi

/-- Slices lying inside the first 41 bytes are unchanged by `take 41`. -/
theorem listSlice_take41 {raw : List Nat} (hlen : 41 ≤ raw.length) (i n : Nat)
    (hn : i + n ≤ 41) : listSlice (raw.take 41) i n = listSlice raw i n := by
  have h1 : (raw.take 41).length = 41 := by rw [List.length_take]; omega
  have hc2 : i + n ≤ raw.length := by omega
  have hc1 : i + n ≤ (raw.take 41).length := by omega
  simp only [listSlice, if_pos hc1, if_pos hc2, Option.some.injEq]
  rw [List.drop_take, List.take_take]
  congr 1
  omega

/-- The header parse reads only inside the first 41 bytes. -/
theorem parseHeader_take41 {raw : List Nat} (hlen : 41 ≤ raw.length) :
    parseHeader (raw.take 41) 1 = parseHeader raw 1 := by
  unfold parseHeader
  rw [listSlice_take41 hlen 1 2 (by omega), listSlice_take41 hlen (1 + 2) 1 (by omega),
    listSlice_take41 hlen (1 + 3) 1 (by omega), listSlice_take41 hlen (1 + 4) 1 (by omega),
    listSlice_take41 hlen (1 + 5) 4 (by omega)]

/-- The body parse starting at offset 10 reads only inside the first 41
bytes. -/
theorem parseBody_take41 {raw : List Nat} (hlen : 41 ≤ raw.length) :
    parseBody (raw.take 41) 10 = parseBody raw 10 := by
  unfold parseBody
  rw [listSlice_take41 hlen 10 6 (by omega), listSlice_take41 hlen (10 + 6) 6 (by omega),
    getElem_take41 raw (10 + 12) (by omega), getElem_take41 raw (10 + 13) (by omega),
    getElem_take41 raw (10 + 14) (by omega), listSlice_take41 hlen (10 + 15) 4 (by omega)]

/-- The quote parse starting at offset 29 reads only inside the first 41
bytes. -/
theorem parseQuote_take41 {raw : List Nat} (hlen : 41 ≤ raw.length) :
    parseQuote (raw.take 41) 29 = parseQuote raw 29 := by
  unfold parseQuote
  rw [listSlice_take41 hlen 29 5 (by omega), listSlice_take41 hlen (29 + 5) 4 (by omega)]

/-- Two buffers of length at least 41 that agree on their first 41 bytes
parse identically — success or failure, and the full result. -/
theorem parse_format6_agree {raw1 raw2 : List Nat} (h1 : 41 ≤ raw1.length)
    (h2 : 41 ≤ raw2.length) (hag : raw1.take 41 = raw2.take 41) :
    parse_format6 raw1 = parse_format6 raw2 := by
  have hesc : raw1[(0 : Nat)]? = raw2[(0 : Nat)]? := by
    rw [← getElem_take41 raw1 0 (by omega), hag, getElem_take41 raw2 0 (by omega)]
  have hH : parseHeader raw1 1 = parseHeader raw2 1 := by
    rw [← parseHeader_take41 h1, hag, parseHeader_take41 h2]
  have hB : parseBody raw1 10 = parseBody raw2 10 := by
    rw [← parseBody_take41 h1, hag, parseBody_take41 h2]
  have hQ : parseQuote raw1 29 = parseQuote raw2 29 := by
    rw [← parseQuote_take41 h1, hag, parseQuote_take41 h2]
  have hg38 : raw1[(38 : Nat)]? = raw2[(38 : Nat)]? := by
    rw [← getElem_take41 raw1 38 (by omega), hag, getElem_take41 raw2 38 (by omega)]
  have hg39 : raw1[38 + 1]? = raw2[38 + 1]? := by
    rw [← getElem_take41 raw1 (38 + 1) (by omega), hag,
      getElem_take41 raw2 (38 + 1) (by omega)]
  have hg40 : raw1[38 + 2]? = raw2[38 + 2]? := by
    rw [← getElem_take41 raw1 (38 + 2) (by omega), hag,
      getElem_take41 raw2 (38 + 2) (by omega)]
  unfold parse_format6
  rw [hesc]
  cases raw2[(0 : Nat)]? with
  | none => rfl
  | some esc =>
    simp only [Option.bind_eq_bind, Option.some_bind]
    rw [hH]
    cases hph : parseHeader raw2 1 with
    | none => rfl
    | some p =>
      obtain ⟨header, idx1⟩ := p
      have h10 : idx1 = 10 := by have := (parseHeader_elim hph).1; omega
      subst h10
      simp only [Option.bind_eq_bind, Option.some_bind]
      rw [hB]
      cases hpb : parseBody raw2 10 with
      | none => rfl
      | some p =>
        obtain ⟨body, idx2⟩ := p
        have h29 : idx2 = 29 := by have := (parseBody_elim hpb).1; omega
        subst h29
        simp only [Option.bind_eq_bind, Option.some_bind]
        rw [hQ]
        cases hpq : parseQuote raw2 29 with
        | none => rfl
        | some p =>
          obtain ⟨quote, idx3⟩ := p
          have h38 : idx3 = 38 := by have := (parseQuote_elim hpq).1; omega
          subst h38
          simp only [Option.bind_eq_bind, Option.some_bind]
          rw [hg38]
          cases raw2[(38 : Nat)]? with
          | none => rfl
          | some ck =>
            simp only [Option.bind_eq_bind, Option.some_bind]
            rw [hg39]
            cases raw2[38 + 1]? with
            | none => rfl
            | some t1 =>
              simp only [Option.bind_eq_bind, Option.some_bind]
              rw [hg40]

/-- Claim C10: `parse_format6` depends only on the first 41 bytes of its
input — two buffers of length at least 41 that agree on bytes 0 through 40
and both parse successfully yield equal records; in particular appending
arbitrary bytes after byte 40 never changes the result. -/
theorem C10_first_41_bytes_determine (raw1 raw2 : List Nat)
    (h1 : 41 ≤ raw1.length) (h2 : 41 ≤ raw2.length)
    (hag : raw1.take 41 = raw2.take 41)
    (r1 r2 : Format6Record) (n1 n2 : Nat)
    (hp1 : parse_format6 raw1 = some (r1, n1))
    (hp2 : parse_format6 raw2 = some (r2, n2)) :
    r1 = r2 := by
  have h := parse_format6_agree h1 h2 hag
  rw [hp1, hp2] at h
  exact congrArg Prod.fst (Option.some.inj h)

/-- Witness for C10: the test vector and the test vector with one junk byte
appended agree on their first 41 bytes, both parse, and the records are
equal. -/
theorem C10_witness : fmt6ExpectedRec = fmt6ExpectedRec :=
  C10_first_41_bytes_determine fmt6TestBuf (fmt6TestBuf ++ [255]) (by decide)
    (by decide) (by decide) fmt6ExpectedRec fmt6ExpectedRec 41 41
    (by decide) (by decide)

end Qraft
